import Mathlib

/-!
Verification of the authorization-gated WebDAV filesystem (`webdav/fs/fs.go`),
the policy-resolution helper `regoOf` (example package), the dead-property
store (`DPFile.DeadProps` / `DPFile.Patch`) and the tree-copy utility
`CopyFiles` (`webdav/utilities.go`), as shallow Lean embeddings of the Go
source.

Modelling conventions:
* `context.Context` parameters are threaded through the Go code unchanged and
  only carry the principal identity that the permission handler consumes; the
  handler is therefore modelled directly as a function `Action → Perms` and
  contexts are dropped.
* Calls into the operating system are modelled by an oracle `OsEnv` that gives
  the result of each `os.*` / `ioutil.*` call; Go `error` values are the
  inductive `GoError` (`notExist` models `os.ErrNotExist`, `notAllowed` models
  `webdav.ErrNotAllowed`, `invalid` models `os.ErrInvalid`, `exist` models
  `os.ErrExist`, `recursionTooDeep` models `webdav.ErrRecursionTooDeep`).
* The platform is POSIX: `filepath.Separator = '/'`, `filepath.FromSlash` is
  the identity and `filepath.Clean` / `filepath.Join` agree with
  `path.Clean` / `path.Join`.
* Go strings are Lean `String`s, manipulated through their character lists.
-/

namespace Webdev

/-- Go `path.Clean` splits the path into `/`-separated segments; this is the
segment split on character lists, keeping empty segments. -/
def splitSlash : List Char → List (List Char)
  | [] => [[]]
  | c :: rest =>
    if c = '/' then [] :: splitSlash rest
    else
      match splitSlash rest with
      | s :: ss => (c :: s) :: ss
      | [] => [[c]]

/-- The segment processing of Go `path.Clean`: empty and `.` segments are
dropped, `..` pops the last kept segment (unless that segment is itself `..`),
is dropped at the root of a rooted path, and is kept for a relative path with
nothing left to pop.  `acc` is the reversed stack of output segments. -/
def cleanSegs (rooted : Bool) : List (List Char) → List (List Char) → List (List Char)
  | [], acc => acc.reverse
  | s :: rest, acc =>
    if s = [] ∨ s = ['.'] then cleanSegs rooted rest acc
    else if s = ['.', '.'] then
      match acc with
      | a :: accTail =>
        if a = ['.', '.'] then cleanSegs rooted rest (['.', '.'] :: a :: accTail)
        else cleanSegs rooted rest accTail
      | [] =>
        if rooted then cleanSegs rooted rest []
        else cleanSegs rooted rest [['.', '.']]
    else cleanSegs rooted rest (s :: acc)

/-- Join cleaned segments back with `/`. -/
def joinSegsC : List (List Char) → List Char
  | [] => []
  | [s] => s
  | s :: rest => s ++ '/' :: joinSegsC rest

/-- Test `path[0] == '/'`: is the path rooted? -/
def headIsSlash : List Char → Bool
  | c :: _ => c == '/'
  | [] => false

/-- Go `path.Clean` on character lists. -/
def cleanChars (p : List Char) : List Char :=
  if p = [] then ['.']
  else
    let rooted := headIsSlash p
    let segs := cleanSegs rooted (splitSlash p) []
    if rooted then '/' :: joinSegsC segs
    else if segs = [] then ['.']
    else joinSegsC segs

/-- Go `path.Clean`. -/
def pathClean (p : String) : String :=
  String.mk (cleanChars p.data)

/-- Go `path.Split`: the portion up to and including the final slash, and the
portion after it. -/
def pathSplit (p : List Char) : List Char × List Char :=
  match p.reverse.span (fun c => c ≠ '/') with
  | (revFile, revDir) => (revDir.reverse, revFile.reverse)

/-- Go `path.Dir`: `Clean` of the directory portion of `Split`. -/
def pathDir (p : String) : String :=
  String.mk (cleanChars (pathSplit p.data).1)

/-- Go `path.Base`: everything after the final slash, once trailing slashes
are removed; `"."` for the empty path and `"/"` for an all-slash path. -/
def pathBase (p : String) : String :=
  if p.data = [] then "."
  else
    let q := (p.data.reverse.dropWhile (fun c => c = '/')).reverse
    let file := (q.reverse.span (fun c => c ≠ '/')).1.reverse
    if file = [] then "/" else String.mk file

/-- Embedding of `webdav.SlashClean` (utilities.go): `path.Clean("/" + name)` whenever
`name` is empty or does not begin with a slash. -/
def SlashClean (name : String) : String :=
  String.mk (cleanChars (
    match name.data with
    | '/' :: rest => '/' :: rest
    | l => '/' :: l))

/-- Go `filepath.Join` on two elements for separator `'/'`: the non-empty
elements joined with `'/'` and then cleaned; `""` when both are empty. -/
def filepathJoin (a b : String) : String :=
  match a.data, b.data with
  | [], [] => ""
  | [], bd => String.mk (cleanChars bd)
  | ad, [] => String.mk (cleanChars ad)
  | ad, bd => String.mk (cleanChars (ad ++ '/' :: bd))

/-- Embedding of `strings.Contains(name, "\x00")`. -/
def containsNul (s : String) : Bool :=
  s.data.any (fun c => c = Char.ofNat 0)

/-- Does `s` begin with `pre` (character-list core of `strings.HasPrefix`)? -/
def listPfx : List Char → List Char → Bool
  | [], _ => true
  | _ :: _, [] => false
  | a :: as, b :: bs => a = b && listPfx as bs

/-- Go `strings.HasPrefix s pfx`: does `s` begin with `pfx`? -/
def hasPfx (s pfx : String) : Bool :=
  listPfx pfx.data s.data

/-! ## Data model of `webdav/fs/fs.go` -/

/-- The Go `error` values the embedded code distinguishes.  `notExist` is
`os.ErrNotExist`, `notAllowed` is `webdav.ErrNotAllowed`, `invalid` is
`os.ErrInvalid`, `exist` is `os.ErrExist`, `recursionTooDeep` is
`webdav.ErrRecursionTooDeep`, and `ioErr` stands for any other I/O error. -/
inductive GoError where
  | notExist
  | notAllowed
  | invalid
  | exist
  | recursionTooDeep
  | ioErr
deriving DecidableEq

/-- Embedding of `os.IsNotExist` on an optional error. -/
def isNotExist : Option GoError → Bool
  | some .notExist => true
  | _ => false

/-- The slice of an `os.FileInfo` the embedded code inspects: name, `IsDir`,
and the mode bits. -/
structure FileInfo where
  fname : String
  dir : Bool
  mode : Nat
deriving DecidableEq

/-- Embedding of `os.IsNotExist` applied to the error of a stat-like result. -/
def isNotExistRes : Except GoError FileInfo → Bool
  | .error .notExist => true
  | _ => false

/-- A value of Go `map[string]interface{}` as `FS.Allow` sees it: a boolean,
a string (banner hints), or anything else. -/
inductive PVal where
  | b (v : Bool)
  | s (v : String)
  | other
deriving DecidableEq

/-- A decision map (`map[string]interface{}`) as an association list with
the usual leftmost-key-wins lookup. -/
abbrev Perms := List (String × PVal)

/-- Go map lookup on the association list. -/
def permLookup : Perms → String → Option PVal
  | [], _ => none
  | (k, v) :: rest, key => if k = key then some v else permLookup rest key

/-- Embedding of `type Allow string` (fs.go). -/
abbrev Allow := String

def AllowCreate : Allow := "Create"
def AllowRead : Allow := "Read"
def AllowWrite : Allow := "Write"
def AllowDelete : Allow := "Delete"
def AllowStat : Allow := "Stat"

/-- Embedding of `type Action struct { Action Allow; Name string }`. -/
structure Action where
  action : Allow
  name : String

/-- Result of `ioutil.ReadFile`: contents, an `os.IsNotExist` error, or any
other read error. -/
inductive ReadRes where
  | ok (data : String)
  | errNotExist
  | errOther
deriving DecidableEq

/-- Oracle for the operating-system calls made by the embedded code.  Each
field gives the outcome of the corresponding `os.*`/`ioutil.*` call; `none`
as an `Option GoError` means the call succeeded.  Dead-property sidecar files
are modelled at the level of their decoded `map[string]string` content
(`propsFile`: `none` means the sidecar is absent, unreadable or undecodable,
which the source treats alike; `writeFile` receives the map to be serialized,
with Go's nil map modelled as `none`). -/
structure OsEnv where
  osStat : String → Except GoError FileInfo
  osOpen : String → Nat → Option GoError
  osMkdir : String → Option GoError
  osRemoveAll : String → Option GoError
  osRename : String → String → Option GoError
  osReaddir : String → Int → Except GoError (List FileInfo)
  readFile : String → ReadRes
  propsFile : String → Option (List (String × String))
  writeFile : String → Option (List (String × String)) → Option GoError

/-- Embedding of `type FS struct ...` (fs.go).
The `Locks` field is never consulted by the embedded operations and is
omitted; the permission handler is the stored function, with the
`context.Context` argument dropped (see module comment). -/
structure FS where
  Root : String
  PermissionHandler : Action → Perms

/-- The flag bit `os.O_RDWR`. -/
def O_RDWR : Nat := 2

/-- Embedding of `FS.resolve` (fs.go).  On the modelled platform `filepath.Separator`
is `'/'`, so the separator disjunct of the source's malformed-path test is
vacuous and only the NUL check remains; `filepath.FromSlash` is the
identity. -/
def FS.resolve (d : FS) (name : String) : String :=
  if containsNul name then ""
  else
    let dir := if d.Root = "" then "." else d.Root
    filepathJoin dir (SlashClean name)

/-- Embedding of `FS.Allow` (fs.go): `v, ok := permissions[string(allow)].(bool); if ok
return v; return false`. -/
def FS.Allow (_d : FS) (permissions : Perms) (allow : Allow) : Bool :=
  match permLookup permissions allow with
  | some (.b v) => v
  | _ => false

/-- Embedding of `FS.Mkdir` (fs.go). -/
def FS.Mkdir (d : FS) (env : OsEnv) (name : String) : Option GoError :=
  let name := d.resolve name
  if name = "" then some .notExist
  else
    let permission := d.PermissionHandler ⟨AllowCreate, pathBase name⟩
    if ¬ d.Allow permission AllowCreate then some .notAllowed
    else env.osMkdir name

/-- Embedding of `type DPFile struct ...` (fs.go).  The
open `*os.File` is identified by its name (`F.Name()`); the context is
dropped (see module comment). -/
structure DPFile where
  fs : FS
  name : String

/-- Embedding of `FS.OpenFile` (fs.go). -/
def FS.OpenFile (d : FS) (env : OsEnv) (name : String) (flag : Nat) :
    Except GoError DPFile :=
  let name := d.resolve name
  if name = "" then .error .notExist
  else
    let statRes := env.osStat name
    -- on create, ask parent if we can modify it
    if isNotExistRes statRes then
      let permission := d.PermissionHandler ⟨AllowCreate, pathDir name⟩
      if Nat.land flag O_RDWR ≠ 0 ∧ ¬ d.Allow permission AllowCreate then
        .error .notAllowed
      else
        match env.osOpen name flag with
        | some e => .error e
        | none => .ok ⟨d, name⟩
    else
      -- on update, ask file if it can be modified
      let permission := d.PermissionHandler ⟨AllowWrite, name⟩
      if ¬ d.Allow permission AllowStat then .error .notExist
      else if Nat.land flag O_RDWR ≠ 0 ∧ ¬ d.Allow permission AllowWrite then
        .error .notAllowed
      else
        match env.osOpen name flag with
        | some e => .error e
        | none => .ok ⟨d, name⟩

/-- Embedding of `FS.RemoveAll` (fs.go). -/
def FS.RemoveAll (d : FS) (env : OsEnv) (name : String) : Option GoError :=
  let name := d.resolve name
  if name = "" then some .notExist
  else
    let permission := d.PermissionHandler ⟨AllowDelete, name⟩
    if ¬ d.Allow permission AllowStat then some .notExist
    else if ¬ d.Allow permission AllowDelete then some .notAllowed
    else if name = pathClean d.Root then
      -- Prohibit removing the virtual root directory.
      some .invalid
    else env.osRemoveAll name

/-- Result of `FS.Rename`, instrumented to record whether control reached the
final `os.Rename` call: `early e` is a return before it, `store r` means
`os.Rename` was invoked and returned `r`. -/
inductive RenameRes where
  | early (e : GoError)
  | store (r : Option GoError)
deriving DecidableEq

/-- Embedding of `FS.Rename` (fs.go). -/
def FS.Rename (d : FS) (env : OsEnv) (oldName newName : String) : RenameRes :=
  let oldName := d.resolve oldName
  if oldName = "" then .early .notExist
  else
    let permission := d.PermissionHandler ⟨AllowRead, oldName⟩
    if ¬ d.Allow permission AllowStat then .early .notExist
    else if ¬ d.Allow permission AllowRead then .early .notAllowed
    else
      let newName := d.resolve newName
      -- if the name DOES exist, then rename is not allowed
      if newName ≠ "" then .early .notAllowed
      else
        let permission := d.PermissionHandler ⟨AllowCreate, newName⟩
        if ¬ d.Allow permission AllowWrite then .early .notAllowed
        else if pathClean d.Root = oldName ∨ pathClean d.Root = newName then
          -- Prohibit renaming from or to the virtual root directory.
          .early .invalid
        else .store (env.osRename oldName newName)

/-- Embedding of `FS.Stat` (fs.go).  Note that if we can't stat a file, the source tells
the user that it does not exist. -/
def FS.Stat (d : FS) (env : OsEnv) (name : String) : Except GoError FileInfo :=
  let name := d.resolve name
  if name = "" then .error .notExist
  else
    let permission := d.PermissionHandler ⟨AllowStat, name⟩
    if ¬ d.Allow permission AllowStat then .error .notExist
    else env.osStat name

/-- Embedding of `DPFile.Readdir` (fs.go): list the directory, then filter; the source
computes the permissions for each entry from `f.F.Name()` — the name of the
opened directory itself — and appends the entry when `Stat` is allowed. -/
def DPFile.Readdir (f : DPFile) (env : OsEnv) (n : Int) :
    Except GoError (List FileInfo) :=
  match env.osReaddir f.name n with
  | .error e => .error e
  | .ok result =>
    -- filter out what we are not allowed to see
    let filteredResult := result.foldl
      (fun acc entry =>
        let permissions := f.fs.PermissionHandler ⟨AllowStat, f.name⟩
        if f.fs.Allow permissions AllowStat then acc ++ [entry] else acc)
      []
    .ok filteredResult

/-! ## Naming conventions and the dead-property store (fs.go) -/

/-- Embedding of `NameFor` (fs.go): the sidecar name for `name` carrying data of kind
`ftype`.  Note that the source calls `strings.HasPrefix(".__", b)` — with the
literal as the *subject* — so the test asks whether `".__"` begins with the
base name, not the reverse; on a stat failure the function logs and returns
the empty string. -/
def NameFor (env : OsEnv) (name ftype : String) : String :=
  let d := pathDir name
  let b := pathBase name
  if hasPfx ".__" b then name
  else if d = "." then b ++ "/.__" ++ ftype
  else
    match env.osStat name with
    | .error _ => ""
    | .ok s =>
      if s.dir then name ++ "/.__" ++ ftype
      else d ++ "/.__" ++ b ++ "." ++ ftype

/-- Embedding of `DPFile.DeadProps` (fs.go).  Sidecar (`".__"`-prefixed) files never carry
properties; an absent, unreadable or undecodable sidecar yields the empty
set.  The decoded `map[string]string` is the association list stored by
`OsEnv.propsFile`; the returned `map[xml.Name]webdav.Property` is modelled as
the list of `(Local, InnerXML)` pairs, the `Space` being the constant
`"DAV:"`.  The source's error result is always `nil`. -/
def DPFile.DeadProps (f : DPFile) (env : OsEnv) : List (String × String) :=
  if hasPfx (pathBase f.name) ".__" then []
  else
    let propertiesFile := NameFor env f.name "deadproperties.json"
    match env.propsFile propertiesFile with
    | none => []
    | some propertiesMap => propertiesMap

/-- The two run-time faults that `DPFile.Patch` can run into: writing to the
nil map `writeVal`, and indexing `retval[0]` in the zero-length slice
`retval`. -/
inductive GoFault where
  | nilMapAssign
  | indexOutOfRange
deriving DecidableEq

/-- Embedding of `webdav.Propstat`, restricted to the fields the source populates. -/
structure Propstat where
  props : List (String × String)
  status : Nat
deriving DecidableEq

/-- Assignment `m[k] = v` on a Go `map[string]string` modelled as an
association list: replace the binding of `k` or append it. -/
def mapSet : List (String × String) → String → String → List (String × String)
  | [], k, v => [(k, v)]
  | (k0, v0) :: rest, k, v =>
    if k0 = k then (k, v) :: rest else (k0, v0) :: mapSet rest k v

/-- The first loop of `DPFile.Patch`: `for k := range current
{ writeVal[k.Local] = string(current[k].InnerXML) }`.  `writeVal` is a Go
map that may be nil (`none`); assigning into a nil map faults. -/
def storeAll (m : Option (List (String × String))) :
    List (String × String) → Except GoFault (Option (List (String × String)))
  | [] => .ok m
  | (k, v) :: rest =>
    match m with
    | none => .error .nilMapAssign
    | some mm => storeAll (some (mapSet mm k v)) rest

/-- One iteration of the inner loop of `DPFile.Patch`, in source order:
append the property to `retval[0].Props` (faulting when `retval` is empty),
assign `writeVal[k] = s` (faulting when `writeVal` is nil), set
`retval[0].Status = 200`. -/
def patchOne (retval : List Propstat) (writeVal : Option (List (String × String)))
    (k s : String) :
    Except GoFault (List Propstat × Option (List (String × String))) :=
  match retval with
  | [] => .error .indexOutOfRange
  | r0 :: rest =>
    let r0 := { r0 with props := r0.props ++ [(k, s)] }
    match writeVal with
    | none => .error .nilMapAssign
    | some m =>
      .ok ({ r0 with status := 200 } :: rest, some (mapSet m k s))

/-- The inner loop of `DPFile.Patch` over `p[i].Props`. -/
def patchProps (retval : List Propstat) (writeVal : Option (List (String × String))) :
    List (String × String) →
    Except GoFault (List Propstat × Option (List (String × String)))
  | [] => .ok (retval, writeVal)
  | (k, s) :: rest =>
    match patchOne retval writeVal k s with
    | .error f => .error f
    | .ok (rv, wv) => patchProps rv wv rest

/-- The outer loop of `DPFile.Patch` over `p`. -/
def patchAll (retval : List Propstat) (writeVal : Option (List (String × String))) :
    List (List (String × String)) →
    Except GoFault (List Propstat × Option (List (String × String)))
  | [] => .ok (retval, writeVal)
  | pp :: rest =>
    match patchProps retval writeVal pp with
    | .error f => .error f
    | .ok (rv, wv) => patchAll rv wv rest

/-- Outcome of `DPFile.Patch`: a run-time fault, an error return (the
`WriteFile` failure), or a normal return with the propstat list. -/
inductive PatchRes where
  | faulted (k : GoFault)
  | failed (e : GoError)
  | done (r : List Propstat)
deriving DecidableEq

/-- Embedding of `DPFile.Patch` (fs.go).  A `webdav.Proppatch` is modelled as its `Props`
list of `(Local, InnerXML)` pairs (the source ignores the `Remove` flag).
`retval` starts as the zero-length slice and `writeVal` as the nil map;
`json.MarshalIndent` on a `map[string]string` cannot fail and is modelled as
always succeeding. -/
def DPFile.Patch (f : DPFile) (env : OsEnv) (p : List (List (String × String))) :
    PatchRes :=
  let retval : List Propstat := []
  let current := f.DeadProps env
  let writeVal : Option (List (String × String)) := none
  match storeAll writeVal current with
  | .error k => .faulted k
  | .ok writeVal =>
    match patchAll retval writeVal p with
    | .error k => .faulted k
    | .ok (retval, writeVal) =>
      let propertiesFile := NameFor env f.name "deadproperties.json"
      match env.writeFile propertiesFile writeVal with
      | some e => .failed e
      | none => .done retval

/-! ## Policy resolution (`regoOf`, example package of part_002) -/

/-- Embedding of `emptyPolicy` (example package): the built-in deny-all policy document
returned when resolution bottoms out; every permission is `false` and the
banner is `"error"`. -/
def emptyPolicy : String :=
  "package policy\nCreate = false\nRead = false\nWrite = false\nDelete = false\nStat = false\nBanner = \"error\"\nBannerForeground = \"white\"\nBannerBackground = \"black\"\n"

/-- Embedding of `regoOf` (example package), with explicit fuel: the Go function recurses
on `path.Dir(name)` whenever the sidecar read fails with not-exist and the
parent is neither `"."` nor `root`, and this recursion is not structurally
well-founded (`path.Dir "/" = "/"`), so the embedding returns `none` when
the fuel runs out, modelling non-termination. -/
def regoOfF (env : OsEnv) (root : String) : String → Nat → Option String
  | _, 0 => none
  | name, n + 1 =>
    let regoFile := NameFor env name "security.rego"
    let d := pathDir name
    let data := env.readFile regoFile
    if d ≠ "." ∧ d ≠ root ∧ data = .errNotExist then regoOfF env root d n
    else
      match data with
      | .ok s => some s
      | _ => some emptyPolicy

/-- Predicate that `regoOf` terminates on the given input: some amount of fuel suffices. -/
def RegoTerminates (env : OsEnv) (root name : String) : Prop :=
  ∃ n, (regoOfF env root name n).isSome = true

/-! ## Recursive copy (`CopyFiles`, webdav/utilities.go) -/

/-- The `InfiniteDepth` marker.  The constant is referenced by `utilities.go` but
declared in handler code outside the sources; following the upstream
`x/net/webdav` convention it is `-1`.  None of the theorems below depend on
its value. -/
def InfiniteDepth : Int := -1

/-- The filesystem-and-files oracle used by `CopyFiles`, threading an
abstract state `σ` through every call so that earlier operations may affect
later results.  Open files are identified by the path they were opened at.
`openRO` is `fs.OpenFile(src, O_RDONLY, 0)`, `statH` is `srcFile.Stat()`,
`stat` is `fs.Stat(dst)`, `readdir` is `srcFile.Readdir(-1)` returning the
child names, `openRW` is `fs.OpenFile(dst, O_RDWR|O_CREATE|O_TRUNC, perm)`,
`ioCopy` is `io.Copy(dstFile, srcFile)`, `cpProps` is
`CopyProps(dstFile, srcFile)`, and `closeDst` is `dstFile.Close()`.  The
deferred `srcFile.Close()` has no observable effect on any modelled result
and is not represented. -/
structure CopyEnv (σ : Type) where
  openRO : String → σ → Option GoError × σ
  statH : String → σ → Except GoError FileInfo × σ
  stat : String → σ → Except GoError FileInfo × σ
  removeAll : String → σ → Option GoError × σ
  mkdir : String → Nat → σ → Option GoError × σ
  readdir : String → σ → Except GoError (List String) × σ
  openRW : String → Nat → σ → Option GoError × σ
  ioCopy : String → String → σ → Option GoError × σ
  cpProps : String → String → σ → Option GoError × σ
  closeDst : String → σ → Option GoError × σ

/-- The result of `CopyFiles`: an HTTP status and an optional error.  The
outer `Option` is the fuel marker of the embedding: `none` means the fuel
ran out (the Go recursion did not come back within that many nested calls). -/
abbrev CopyRes := Option (Nat × Option GoError)

/-- The `for _, c := range children` loop of `CopyFiles`: copy each child,
returning the child's status and error as soon as a child fails
(`if cErr != nil`), and propagating fuel exhaustion.  `some none` means the
loop ran to completion. -/
def copyChildren {σ : Type} (step : String → String → σ → CopyRes × σ) :
    List String → String → String → σ → Option (Option (Nat × Option GoError)) × σ
  | [], _, _, s => (some none, s)
  | c :: rest, src, dst, s =>
    match step (filepathJoin src c) (filepathJoin dst c) s with
    | (none, s) => (none, s)
    | (some (cStatus, some cErr), s) => (some (some (cStatus, some cErr)), s)
    | (some (_, none), s) => copyChildren step rest src dst s

/-- Embedding of `CopyFiles` (utilities.go) with explicit fuel (first argument): one unit
of fuel is one activation of the Go function.  HTTP statuses appear as their
numeric values (`500` internal server error, `404` not found, `403`
forbidden, `412` precondition failed, `409` conflict, `201` created, `204`
no content). -/
def copyFilesF {σ : Type} (env : CopyEnv σ) (overwrite : Bool) (depth : Int) :
    Nat → Nat → String → String → σ → CopyRes × σ
  | 0, _, _, _, s => (none, s)
  | fuel + 1, recursion, src, dst, s =>
    if recursion = 1000 then (some (500, some .recursionTooDeep), s)
    else
      let recursion := recursion + 1
      match env.openRO src s with
      | (some e, s) =>
        (some (if e = .notExist then 404 else 500, some e), s)
      | (none, s) =>
      match env.statH src s with
      | (.error e, s) =>
        (some (if e = .notExist then 404 else 500, some e), s)
      | (.ok srcStat, s) =>
      let srcPerm := Nat.land srcStat.mode 511
      -- created / overwrite / remove-destination logic: `Sum.inl (created, s)`
      -- falls through, `Sum.inr (res, s)` is an early return
      let afterDst : (Bool × σ) ⊕ ((Nat × Option GoError) × σ) :=
        match env.stat dst s with
        | (.error e, s) =>
          if e = .notExist then .inl (true, s)
          else .inr ((403, some e), s)
        | (.ok _, s) =>
          if ¬ overwrite then .inr ((412, some .exist), s)
          else
            match env.removeAll dst s with
            | (some e, s) =>
              if ¬ (e = .notExist) then .inr ((403, some e), s)
              else .inl (false, s)
            | (none, s) => .inl (false, s)
      match afterDst with
      | .inr (res, s) => (some res, s)
      | .inl (created, s) =>
      if srcStat.dir then
        match env.mkdir dst srcPerm s with
        | (some e, s) => (some (403, some e), s)
        | (none, s) =>
          if depth = InfiniteDepth then
            match env.readdir src s with
            | (.error e, s) => (some (403, some e), s)
            | (.ok children, s) =>
              match copyChildren
                  (copyFilesF env overwrite depth fuel recursion)
                  children src dst s with
              | (none, s) => (none, s)
              | (some (some r), s) => (some r, s)
              | (some none, s) =>
                (some (if created then (201, none) else (204, none)), s)
          else (some (if created then (201, none) else (204, none)), s)
      else
        match env.openRW dst srcPerm s with
        | (some e, s) =>
          (some (if e = .notExist then 409 else 403, some e), s)
        | (none, s) =>
        match env.ioCopy dst src s with
        | (copyErr, s) =>
        match env.cpProps dst src s with
        | (propsErr, s) =>
        match env.closeDst dst s with
        | (closeErr, s) =>
        match copyErr with
        | some e => (some (500, some e), s)
        | none =>
        match propsErr with
        | some e => (some (500, some e), s)
        | none =>
        match closeErr with
        | some e => (some (500, some e), s)
        | none => (some (if created then (201, none) else (204, none)), s)

/-- The error component of an `OpenFile` result (the success payload wraps
the `FS` value itself, so observable behaviour is compared through the
error). -/
def exceptErr : Except GoError DPFile → Option GoError
  | .error e => some e
  | .ok _ => none

/-! ## Concrete fixtures used by witnesses and counterexamples -/

/-- A small machine state: the root `"/"` is an existing directory and
`"data/cat.jpg"` an existing plain file; nothing else exists, no policy
sidecar or dead-property sidecar is readable, and every mutating call
succeeds. -/
def envEx : OsEnv := {
  osStat := fun p =>
    if p = "/" then .ok ⟨"/", true, 493⟩
    else if p = "data/cat.jpg" then .ok ⟨"cat.jpg", false, 420⟩
    else .error .notExist
  osOpen := fun _ _ => none
  osMkdir := fun _ => none
  osRemoveAll := fun _ => none
  osRename := fun _ _ => none
  osReaddir := fun _ _ => .ok []
  readFile := fun _ => .errNotExist
  propsFile := fun _ => none
  writeFile := fun _ _ => none }

/-- A permission handler that binds `Stat` to the boolean `false` and every
verb-specific permission to `true`, for every path. -/
def fsDenyStat : FS :=
  ⟨"data", fun _ =>
    [("Stat", PVal.b false), ("Create", PVal.b true), ("Read", PVal.b true),
     ("Write", PVal.b true), ("Delete", PVal.b true)]⟩

/-- A permission handler that binds only `Stat`, to `true`: every
verb-specific permission is absent and therefore denied. -/
def fsStatOnly : FS :=
  ⟨"data", fun _ => [("Stat", PVal.b true)]⟩

/-- A permission handler granting `Stat` and `Read` everywhere. -/
def fsRS : FS :=
  ⟨"data", fun _ => [("Stat", PVal.b true), ("Read", PVal.b true)]⟩

/-- Per-path `Stat` visibility: everything is visible except the child
`"data/d/b"`. -/
def fs3 : FS :=
  ⟨"data", fun a =>
    if a.name = "data/d/b" then [("Stat", PVal.b false)]
    else [("Stat", PVal.b true)]⟩

/-- Machine state for the `Readdir` scenario: the directory `"data/d"` has
the two plain children `a` and `b`. -/
def env3 : OsEnv := {
  osStat := fun p =>
    if p = "data/d" then .ok ⟨"d", true, 493⟩ else .error .notExist
  osOpen := fun _ _ => none
  osMkdir := fun _ => none
  osRemoveAll := fun _ => none
  osRename := fun _ _ => none
  osReaddir := fun p _ =>
    if p = "data/d" then .ok [⟨"a", false, 420⟩, ⟨"b", false, 420⟩]
    else .error .notExist
  readFile := fun _ => .errNotExist
  propsFile := fun _ => none
  writeFile := fun _ _ => none }

/-- The opened directory `"data/d"` of `env3`, under the per-path handler. -/
def f3 : DPFile := ⟨fs3, "data/d"⟩

/-- The existing plain file `"data/cat.jpg"` of `envEx`, opened under the
`Stat`-only handler. -/
def fCat : DPFile := ⟨fsStatOnly, "data/cat.jpg"⟩

/-- A handler granting `Create` (and `Stat`) exactly on the parent directory
`"data/rob"` and only `Stat` elsewhere. -/
def fs9 : FS :=
  ⟨"data", fun a =>
    if a.name = "data/rob" then [("Create", PVal.b true), ("Stat", PVal.b true)]
    else [("Stat", PVal.b true)]⟩

/-- A handler granting `Create` only on the unrelated path `"secret"`. -/
def fs9a : FS :=
  ⟨"data", fun a => if a.name = "secret" then [("Create", PVal.b true)] else []⟩

/-- The everywhere-empty handler; agrees with `fs9a` except at `"secret"`. -/
def fs9b : FS := ⟨"data", fun _ => []⟩

/-- A stateless copy oracle over `Unit` whose source open always fails with
not-exist. -/
def cenvU : CopyEnv Unit := {
  openRO := fun _ s => (some .notExist, s)
  statH := fun _ s => (.error .notExist, s)
  stat := fun _ s => (.error .notExist, s)
  removeAll := fun _ s => (none, s)
  mkdir := fun _ _ s => (none, s)
  readdir := fun _ s => (.ok [], s)
  openRW := fun _ _ s => (none, s)
  ioCopy := fun _ _ s => (none, s)
  cpProps := fun _ _ s => (none, s)
  closeDst := fun _ s => (none, s) }

/-! ## Helper lemmas -/

theorem data_eq_nil_iff (a : String) : a.data = [] ↔ a = "" := by
  cases a with
  | mk l =>
    constructor
    · intro h
      subst h
      rfl
    · intro h
      have h2 := congrArg String.data h
      simpa using h2

theorem cleanSegs_mem_ne_nil (rooted : Bool) :
    ∀ (l acc : List (List Char)), (∀ x ∈ acc, x ≠ []) →
      ∀ x ∈ cleanSegs rooted l acc, x ≠ [] := by
  intro l
  induction l with
  | nil =>
    intro acc hacc x hx
    rw [cleanSegs] at hx
    exact hacc x (by simpa using hx)
  | cons s rest ih =>
    intro acc hacc x hx
    simp only [cleanSegs] at hx
    by_cases h1 : s = [] ∨ s = ['.']
    · rw [if_pos h1] at hx
      exact ih acc hacc x hx
    · rw [if_neg h1] at hx
      by_cases h2 : s = ['.', '.']
      · rw [if_pos h2] at hx
        cases acc with
        | nil =>
          dsimp only at hx
          cases rooted with
          | false =>
            simp only [Bool.false_eq_true, if_false] at hx
            refine ih _ ?_ x hx
            intro y hy
            simp only [List.mem_singleton] at hy
            simp [hy]
          | true =>
            simp only [if_true] at hx
            exact ih _ (by simp) x hx
        | cons a accTail =>
          dsimp only at hx
          by_cases h3 : a = ['.', '.']
          · rw [if_pos h3] at hx
            refine ih _ ?_ x hx
            intro y hy
            rcases List.mem_cons.1 hy with h4 | h4
            · simp [h4]
            · exact hacc y h4
          · rw [if_neg h3] at hx
            refine ih _ ?_ x hx
            intro y hy
            exact hacc y (List.mem_cons.2 (Or.inr hy))
      · rw [if_neg h2] at hx
        refine ih _ ?_ x hx
        intro y hy
        rcases List.mem_cons.1 hy with h | h
        · intro hcon
          exact h1 (Or.inl (h ▸ hcon))
        · exact hacc y h

theorem joinSegsC_ne_nil :
    ∀ segs : List (List Char), (∀ x ∈ segs, x ≠ []) → segs ≠ [] →
      joinSegsC segs ≠ [] := by
  intro segs
  match segs with
  | [] => intro _ h; exact absurd rfl h
  | [s] =>
    intro h _
    simpa [joinSegsC] using h s (by simp)
  | s :: t :: rest =>
    intro _ _
    simp [joinSegsC]

theorem cleanChars_ne_nil (p : List Char) : cleanChars p ≠ [] := by
  simp only [cleanChars]
  by_cases hp : p = []
  · simp [hp]
  · rw [if_neg hp]
    by_cases hb : headIsSlash p = true
    · simp [hb]
    · rw [Bool.not_eq_true] at hb
      simp only [hb, Bool.false_eq_true, if_false]
      by_cases hs : cleanSegs false (splitSlash p) [] = []
      · simp [hs]
      · rw [if_neg hs]
        exact joinSegsC_ne_nil _
          (cleanSegs_mem_ne_nil false (splitSlash p) [] (by simp)) hs

theorem pathClean_ne_empty (p : String) : pathClean p ≠ "" := by
  intro h
  have h2 : cleanChars p.data = [] := by
    have h3 := congrArg String.data h
    simpa [pathClean] using h3
  exact cleanChars_ne_nil _ h2

theorem filepathJoin_ne_empty (a b : String) (ha : a ≠ "") :
    filepathJoin a b ≠ "" := by
  have had : a.data ≠ [] := fun h => ha ((data_eq_nil_iff a).1 h)
  rcases h1 : a.data with _ | ⟨c, l⟩
  · exact absurd h1 had
  · rcases h2 : b.data with _ | ⟨c2, l2⟩ <;>
      · rw [filepathJoin, h1, h2]
        intro hcon
        have h3 := congrArg String.data hcon
        simp only [] at h3
        exact cleanChars_ne_nil _ h3

theorem resolve_ne_empty (d : FS) (name : String)
    (h : containsNul name = false) : d.resolve name ≠ "" := by
  rw [FS.resolve, if_neg (by simp [h])]
  by_cases hroot : d.Root = ""
  · rw [if_pos hroot]
    exact filepathJoin_ne_empty _ _ (by simp)
  · rw [if_neg hroot]
    exact filepathJoin_ne_empty _ _ hroot

theorem allow_false_of_not_true (d : FS) (m : Perms) (a : Allow)
    (h : permLookup m a ≠ some (PVal.b true)) : d.Allow m a = false := by
  rw [FS.Allow]
  rcases hl : permLookup m a with _ | v
  · rfl
  · rcases v with b | s | _
    · cases b with
      | false => rfl
      | true => exact absurd hl h
    · rfl
    · rfl

/-! ## Claim theorems -/

/-- C4: `Allow(m, a)` is `true` exactly when `m` binds the key `a` to the
boolean `true`; a missing key or a value of any non-boolean type yields
`false`.  The embedding is a total function, so no exception or fault is
possible. -/
theorem allow_true_iff_bound_true (d : FS) (m : Perms) (a : Allow) :
    d.Allow m a = true ↔ permLookup m a = some (PVal.b true) := by
  rw [FS.Allow]
  rcases hl : permLookup m a with _ | v
  · simp
  · rcases v with b | s | _
    · cases b <;> simp
    · simp
    · simp

/-- C1: whenever the permission handler never binds `Stat` to the boolean
`true`, `Stat`, `OpenFile` on an existing resource, `RemoveAll`, and
`Rename` with the path as source all return `os.ErrNotExist`, whatever the
resource's true existence and the verb-specific permissions. -/
theorem stat_denied_hides_existence (d : FS) (env : OsEnv) (name : String)
    (flag : Nat)
    (hstat : ∀ a : Action, permLookup (d.PermissionHandler a) "Stat" ≠ some (PVal.b true)) :
    FS.Stat d env name = .error .notExist
    ∧ (isNotExistRes (env.osStat (d.resolve name)) = false →
        FS.OpenFile d env name flag = .error .notExist)
    ∧ FS.RemoveAll d env name = some .notExist
    ∧ ∀ newName, FS.Rename d env name newName = .early .notExist := by
  have hA : ∀ a : Action, d.Allow (d.PermissionHandler a) AllowStat = false :=
    fun a => allow_false_of_not_true d _ AllowStat (hstat a)
  refine ⟨?_, ?_, ?_, ?_⟩
  · simp [FS.Stat, hA]
  · intro hex
    simp [FS.OpenFile, hex, hA]
  · simp [FS.RemoveAll, hA]
  · intro newName
    simp [FS.Rename, hA]

theorem stat_denied_hides_existence_witness :
    FS.Stat fsDenyStat envEx "/cat.jpg" = .error .notExist
    ∧ FS.OpenFile fsDenyStat envEx "/cat.jpg" 2 = .error .notExist
    ∧ FS.RemoveAll fsDenyStat envEx "/cat.jpg" = some .notExist
    ∧ FS.Rename fsDenyStat envEx "/cat.jpg" "/new.txt" = .early .notExist := by
  obtain ⟨h1, h2, h3, h4⟩ :=
    stat_denied_hides_existence fsDenyStat envEx "/cat.jpg" 2
      (fun _ => by simp [fsDenyStat, permLookup])
  exact ⟨h1, h2 (by decide), h3, h4 "/new.txt"⟩

/-- C2: when the handler's decision for the operation grants `Stat` but
denies the verb-specific permission (`Delete` for `RemoveAll`, `Write` for
opening an existing resource for write, `Read` for `Rename` as source), the
operation returns `webdav.ErrNotAllowed`, never `os.ErrNotExist`. -/
theorem verb_denied_is_not_allowed (d : FS) (env : OsEnv) (name : String)
    (flag : Nat)
    (hres : d.resolve name ≠ "")
    (hex : isNotExistRes (env.osStat (d.resolve name)) = false)
    (hflag : Nat.land flag O_RDWR ≠ 0)
    (hrs : d.Allow (d.PermissionHandler ⟨AllowDelete, d.resolve name⟩) AllowStat = true)
    (hrd : d.Allow (d.PermissionHandler ⟨AllowDelete, d.resolve name⟩) AllowDelete = false)
    (hos : d.Allow (d.PermissionHandler ⟨AllowWrite, d.resolve name⟩) AllowStat = true)
    (how : d.Allow (d.PermissionHandler ⟨AllowWrite, d.resolve name⟩) AllowWrite = false)
    (hns : d.Allow (d.PermissionHandler ⟨AllowRead, d.resolve name⟩) AllowStat = true)
    (hnr : d.Allow (d.PermissionHandler ⟨AllowRead, d.resolve name⟩) AllowRead = false) :
    FS.RemoveAll d env name = some .notAllowed
    ∧ FS.OpenFile d env name flag = .error .notAllowed
    ∧ ∀ newName, FS.Rename d env name newName = .early .notAllowed := by
  refine ⟨?_, ?_, ?_⟩
  · simp [FS.RemoveAll, hres, hrs, hrd]
  · simp [FS.OpenFile, hres, hex, hos, how, hflag]
  · intro newName
    simp [FS.Rename, hres, hns, hnr]

theorem verb_denied_is_not_allowed_witness :
    FS.RemoveAll fsStatOnly envEx "/cat.jpg" = some .notAllowed
    ∧ FS.OpenFile fsStatOnly envEx "/cat.jpg" 2 = .error .notAllowed
    ∧ FS.Rename fsStatOnly envEx "/cat.jpg" "/new.txt" = .early .notAllowed := by
  obtain ⟨h1, h2, h3⟩ :=
    verb_denied_is_not_allowed fsStatOnly envEx "/cat.jpg" 2 (by decide) (by decide)
      (by decide) (by decide) (by decide) (by decide) (by decide) (by decide) (by decide)
  exact ⟨h1, h2, h3 "/new.txt"⟩

/-- C3 (divergence witness): with per-path `Stat` visibility that hides the
child `"data/d/b"`, `Readdir` on `"data/d"` nevertheless returns both
children, because the source evaluates the `Stat` decision on the opened
directory's own name for every entry. -/
theorem readdir_is_not_per_child :
    DPFile.Readdir f3 env3 0 = .ok [⟨"a", false, 420⟩, ⟨"b", false, 420⟩]
    ∧ FS.Allow fs3 (fs3.PermissionHandler ⟨AllowStat, "data/d/b"⟩) AllowStat = false :=
  ⟨rfl, rfl⟩


/-- C6 (divergence witness): patching a single property `k=v` on the
existing plain file `"data/cat.jpg"` (no sidecar present, so the current
dead-property set is empty) does not store anything: the source indexes
`retval[0]` in the zero-length slice and faults before persisting. -/
theorem patch_roundtrip_faults :
    DPFile.Patch fCat envEx [[("k", "v")]] = .faulted .indexOutOfRange := rfl

theorem patchAll_from_zero_faults (p : List (List (String × String)))
    (hp : ∃ pp ∈ p, pp ≠ []) :
    patchAll [] none p = .error .indexOutOfRange := by
  induction p with
  | nil => simp at hp
  | cons pp rest ih =>
    rw [patchAll]
    cases pp with
    | nil =>
      rw [patchProps]
      refine ih ?_
      rcases hp with ⟨q, hq, hne⟩
      rcases List.mem_cons.1 hq with h | h
      · exact absurd h hne
      · exact ⟨q, h, hne⟩
    | cons kv tl =>
      obtain ⟨k, s⟩ := kv
      rfl

/-- C7: `Patch` cannot complete normally for any patch containing at least
one property: it faults writing the nil map `writeVal` when the current
dead-property set is non-empty, and faults indexing `retval[0]` in the
zero-length result slice otherwise; a normal return therefore requires a
property-free patch list. -/
theorem patch_faults_on_nonempty (f : DPFile) (env : OsEnv)
    (p : List (List (String × String))) (hp : ∃ pp ∈ p, pp ≠ []) :
    f.Patch env p =
      .faulted (if f.DeadProps env = [] then GoFault.indexOutOfRange
                else GoFault.nilMapAssign) := by
  rw [DPFile.Patch]
  rcases hc : f.DeadProps env with _ | ⟨⟨k, v⟩, rest⟩
  · rw [storeAll]
    dsimp only
    rw [patchAll_from_zero_faults p hp]
    simp
  · rw [storeAll]
    simp

theorem patch_faults_on_nonempty_witness :
    DPFile.Patch fCat envEx [[("a", "b")]] =
      .faulted (if fCat.DeadProps envEx = [] then GoFault.indexOutOfRange
                else GoFault.nilMapAssign) :=
  patch_faults_on_nonempty fCat envEx [[("a", "b")]]
    ⟨[("a", "b")], by simp, by simp⟩

/-- C5 (divergence witness): policy resolution does not terminate on every
path.  With the root directory present and no sidecar readable anywhere,
`regoOf("data", "/a")` recurses to `"/"`, and `path.Dir "/" = "/"` is
neither `"."` nor the root, so the recursion never returns: no amount of
fuel makes the embedding produce a result. -/
theorem regoOf_diverges_on_absolute_path :
    ¬ RegoTerminates envEx "data" "/a" := by
  have aux : ∀ n, regoOfF envEx "data" "/" n = none := by
    intro n
    induction n with
    | zero => rfl
    | succ n ih =>
      have hstep : regoOfF envEx "data" "/" (n + 1)
          = regoOfF envEx "data" "/" n := rfl
      rw [hstep, ih]
  rintro ⟨n, hn⟩
  cases n with
  | zero => simp [regoOfF] at hn
  | succ n =>
    have hstep : regoOfF envEx "data" "/a" (n + 1)
        = regoOfF envEx "data" "/" n := rfl
    rw [hstep, aux n] at hn
    simp at hn

/-- C8: for any destination without a NUL byte the resolved destination
string is non-empty, so `Rename` rejects before invoking `os.Rename`; in
particular once the source's `Stat` and `Read` checks pass it returns
`webdav.ErrNotAllowed`, and the underlying rename is unreachable for every
well-formed destination. -/
theorem rename_never_reaches_store (d : FS) (env : OsEnv)
    (oldName newName : String)
    (hnul : containsNul newName = false)
    (hres : d.resolve oldName ≠ "")
    (hs : d.Allow (d.PermissionHandler ⟨AllowRead, d.resolve oldName⟩) AllowStat = true)
    (hr : d.Allow (d.PermissionHandler ⟨AllowRead, d.resolve oldName⟩) AllowRead = true) :
    FS.Rename d env oldName newName = .early .notAllowed
    ∧ ∀ (d2 : FS) (env2 : OsEnv) (old2 : String) (r : Option GoError),
        FS.Rename d2 env2 old2 newName ≠ .store r := by
  constructor
  · simp [FS.Rename, hres, hs, hr, resolve_ne_empty d newName hnul]
  · intro d2 env2 old2 r
    have h2 := resolve_ne_empty d2 newName hnul
    simp only [FS.Rename]
    repeat' split
    all_goals simp_all

theorem rename_never_reaches_store_witness :
    FS.Rename fsRS envEx "/old.txt" "/new.txt" = .early .notAllowed
    ∧ ∀ (d2 : FS) (env2 : OsEnv) (old2 : String) (r : Option GoError),
        FS.Rename d2 env2 old2 "/new.txt" ≠ .store r :=
  rename_never_reaches_store fsRS envEx "/old.txt" "/new.txt"
    (by decide) (by decide) rfl rfl


/-- C9 (counterexample): a handler that grants `Create` (and `Stat`) exactly
on the parent directory `"data/rob"` still gets `ErrNotAllowed` from
`Mkdir("/rob/newdir")`: the decision consulted by `Mkdir` is evaluated at
`path.Base` of the resolved name (`"newdir"`), not at the parent
directory. -/
theorem mkdir_ignores_parent_decision :
    FS.Mkdir fs9 envEx "/rob/newdir" = some GoError.notAllowed
    ∧ FS.Allow fs9
        (fs9.PermissionHandler ⟨AllowCreate, pathDir (fs9.resolve "/rob/newdir")⟩)
        AllowCreate = true :=
  ⟨rfl, rfl⟩

/-- C9 (amended): `OpenFile` on an absent path consults the handler at the
parent directory (`path.Dir` of the resolved name), while `Mkdir` consults
it at the bare base name of the directory being created (`path.Base` of the
resolved name): two filesystems with the same root whose handlers agree on
those respective queries behave identically (`OpenFile` compared through its
error component, the success payload embedding the filesystem itself). -/
theorem create_decision_names (d d2 : FS) (env : OsEnv) (name : String)
    (flag : Nat)
    (hroot : d.Root = d2.Root)
    (hmk : d.PermissionHandler ⟨AllowCreate, pathBase (d.resolve name)⟩
         = d2.PermissionHandler ⟨AllowCreate, pathBase (d.resolve name)⟩)
    (hop : d.PermissionHandler ⟨AllowCreate, pathDir (d.resolve name)⟩
         = d2.PermissionHandler ⟨AllowCreate, pathDir (d.resolve name)⟩)
    (habs : isNotExistRes (env.osStat (d.resolve name)) = true) :
    FS.Mkdir d env name = FS.Mkdir d2 env name
    ∧ exceptErr (FS.OpenFile d env name flag)
      = exceptErr (FS.OpenFile d2 env name flag) := by
  have hres : d.resolve name = d2.resolve name := by
    simp only [FS.resolve, hroot]
  constructor
  · simp only [FS.Mkdir, FS.Allow, ← hres, ← hmk]
  · simp only [FS.OpenFile, FS.Allow, ← hres]
    by_cases hz : d.resolve name = ""
    · rw [if_pos hz, if_pos hz]
    · rw [if_neg hz, if_neg hz]
      rw [if_pos habs, if_pos habs]
      rw [← hop]
      split
      · rfl
      · cases ho : env.osOpen (d.resolve name) flag <;> simp [exceptErr, ho]

theorem create_decision_names_witness :
    FS.Mkdir fs9a envEx "/rob/newdir" = FS.Mkdir fs9b envEx "/rob/newdir"
    ∧ exceptErr (FS.OpenFile fs9a envEx "/rob/newdir" 2)
      = exceptErr (FS.OpenFile fs9b envEx "/rob/newdir" 2) :=
  create_decision_names fs9a fs9b envEx "/rob/newdir" 2 rfl rfl rfl (by decide)

theorem copyChildren_total {σ : Type} (step : String → String → σ → CopyRes × σ)
    (hstep : ∀ a b s, (step a b s).1 ≠ none) :
    ∀ (cs : List String) (src dst : String) (s : σ),
      (copyChildren step cs src dst s).1 ≠ none := by
  intro cs
  induction cs with
  | nil => intro src dst s; simp [copyChildren]
  | cons c rest ih =>
    intro src dst s
    rw [copyChildren]
    rcases h : step (filepathJoin src c) (filepathJoin dst c) s with ⟨r, s2⟩
    have h1 := hstep (filepathJoin src c) (filepathJoin dst c) s
    rw [h] at h1
    rcases r with _ | ⟨st, e⟩
    · exact absurd rfl h1
    · rcases e with _ | e
      · exact ih src dst s2
      · simp

theorem copyFilesF_total {σ : Type} (env : CopyEnv σ) (ow : Bool) (depth : Int) :
    ∀ (fuel r : Nat), r ≤ 1000 → 1000 < fuel + r →
      ∀ (src dst : String) (s : σ),
        (copyFilesF env ow depth fuel r src dst s).1 ≠ none := by
  intro fuel
  induction fuel with
  | zero => intro r h1 h2; omega
  | succ fuel ih =>
    intro r h1 h2 src dst s
    simp only [copyFilesF]
    by_cases hr : r = 1000
    · rw [if_pos hr]; simp
    · rw [if_neg hr]
      have hstep : ∀ a b s2, (copyFilesF env ow depth fuel (r + 1) a b s2).1 ≠ none :=
        fun a b s2 => ih (r + 1) (by omega) (by omega) a b s2
      repeat' split
      all_goals first
      | (simp; done)
      | (rename_i heq
         exact absurd (congrArg Prod.fst heq)
           (copyChildren_total (copyFilesF env ow depth fuel (r + 1)) hstep _ _ _ _))

/-- C10: `CopyFiles` terminates on every copy request: for any starting
recursion counter at most the ceiling, fuel `1001 - r` suffices for the
embedding to produce a result, and when the counter reaches the ceiling of
1000 the function immediately returns HTTP 500 with
`webdav.ErrRecursionTooDeep` instead of recursing further — so a `Copy` of a
directory into its own descendant (which keeps incrementing the counter)
ends with an internal error after finitely many steps. -/
theorem copyFiles_terminates_with_guard {σ : Type} (env : CopyEnv σ) (ow : Bool)
    (depth : Int) (src dst : String) (s : σ) (r : Nat) (hr : r ≤ 1000) :
    (copyFilesF env ow depth (1001 - r) r src dst s).1 ≠ none
    ∧ ∀ (fuel : Nat) (s0 : σ),
        copyFilesF env ow depth (fuel + 1) 1000 src dst s0
          = (some (500, some .recursionTooDeep), s0) := by
  constructor
  · exact copyFilesF_total env ow depth (1001 - r) r hr (by omega) src dst s
  · intro fuel s0
    rfl

theorem copyFiles_terminates_with_guard_witness :
    (copyFilesF cenvU true InfiniteDepth (1001 - 0) 0 "src" "dst" ()).1 ≠ none
    ∧ ∀ (fuel : Nat) (s0 : Unit),
        copyFilesF cenvU true InfiniteDepth (fuel + 1) 1000 "src" "dst" s0
          = (some (500, some .recursionTooDeep), s0) :=
  copyFiles_terminates_with_guard cenvU true InfiniteDepth "src" "dst" () 0 (by omega)

end Webdev
